import Mathlib

/-!
Verification of `nengo/simulator_objects.py` (model-description layer of the
nengo neural-simulation engine).

The Python source is shallowly embedded below:

* `SignalView` records `(base, shape, elemstrides, offset)`; `base` is an
  abstract identifier (object identity of the base `Signal`).  Shapes, strides
  and offsets are Python ints, embedded as `Int`.
* Exceptions are embedded as the inductive `Err`; fallible operations return
  `Except Err _`.  The Python code raises `NameError` in
  `SimModel.nonlinearity` because the identifiers `nl` and `rvla` are
  undefined; this is modelled by `Err.nameError "nl"` / `Err.nameError "rvla"`.
* Mutation of the `SimModel` collections is embedded by explicit state
  passing: each factory returns the new model together with the result (or
  the raised exception).  Python list `pop` inside `__getitem__` acts only on
  local copies of `shape`/`elemstrides`, so `SignalView` operations are pure
  functions of the view.
* Weight matrices are embedded by their shape (`Mat`); the numeric float64
  contents drawn from `numpy.random` are outside the embedding.
-/

namespace Nengo

/-- Exceptions raised by `simulator_objects.py`, by Python exception class and
payload: `ShapeMismatch(shape, self.shape)` from `reshape`; `TODO(msg)` (a
`NotImplementedError` subclass) from `reshape` of a strided view and from
`transpose`; bare `NotImplementedError` from `__getitem__` (out-of-range bare
integer index, and non-unit slice stride); `IndexError` from indexing an empty
dimension list; `ValueError` from `slice.indices` (zero step or negative
length) and from `Encoder`/`Decoder` weight-shape checks (carrying the
offending shape); `NameError` from the undefined identifiers in
`SimModel.nonlinearity`. -/
inductive Err where
  | shapeMismatch (newShape oldShape : List Int)
  | todo (msg : String)
  | notImplemented
  | indexError
  | valueError (weightShape : Option (Int × Int))
  | nameError (ident : String)
  deriving DecidableEq, Repr

/-- Python `slice(start, stop, step)` with optional components. -/
structure SliceDesc where
  start : Option Int
  stop : Option Int
  step : Option Int
  deriving DecidableEq, Repr

/-- One entry of a tuple index: a Python `int` or a `slice`. -/
inductive Index where
  | int (i : Int)
  | slice (s : SliceDesc)
  deriving DecidableEq, Repr

/-- The argument of `SignalView.__getitem__`: a bare int, a bare slice, or a
tuple (or list) of ints and slices. -/
inductive Item where
  | int (i : Int)
  | slice (s : SliceDesc)
  | tuple (idxs : List Index)
  deriving DecidableEq, Repr

/-- Embedding of `SignalView.__init__`: `base` (abstract identity of the base
`Signal`), `shape`, `elemstrides`, `offset`. -/
structure SignalView where
  base : Nat
  shape : List Int
  elemstrides : List Int
  offset : Int
  deriving DecidableEq, Repr

/-- Embedding of `int(np.prod(shape))` on a list of Python ints. -/
def npProd (l : List Int) : Int :=
  l.foldr (· * ·) 1

/-- Embedding of the `size` property: `int(np.prod(self.shape))`. -/
def SignalView.size (v : SignalView) : Int :=
  npProd v.shape

/-- Embedding of CPython `slice.indices(length)` (`PySlice_GetIndicesEx`) as a
total normalization function; the `ValueError` conditions (zero step, negative
length) are checked at the call site in `__getitem__`. -/
def sliceIndices (s : SliceDesc) (length : Int) : Int × Int × Int :=
  let step := s.step.getD 1
  let lower : Int := if step < 0 then -1 else 0
  let upper : Int := if step < 0 then length - 1 else length
  let start :=
    match s.start with
    | none => if step < 0 then upper else lower
    | some x => if x < 0 then max (x + length) lower else min x upper
  let stop :=
    match s.stop with
    | none => if step < 0 then lower else upper
    | some x => if x < 0 then max (x + length) lower else min x upper
  (start, stop, step)

/-- Embedding of the stride-building loop in `SignalView.reshape`:
`for si in reversed(shape[1:]): elemstrides = [si * elemstrides[0]] + elemstrides`,
folded over the already-reversed list. -/
def stridesLoop : List Int → List Int → List Int
  | [], acc => acc
  | si :: rest, acc => stridesLoop rest (si * acc.headD 1 :: acc)

/-- Elemstrides computed by `SignalView.reshape` for a requested shape,
starting from `[1]`. -/
def reshapeElemstrides (shape : List Int) : List Int :=
  stridesLoop (shape.drop 1).reverse [1]

/-- Embedding of `SignalView.reshape`: requires the current view to have
`elemstrides == (1,)`; checks `int(np.prod(shape)) != self.size` and raises
`ShapeMismatch(shape, self.shape)`; otherwise returns a new view over the same
base with the recomputed elemstrides and the same offset.  A strided view
raises `TODO('reshape of strided view')`. -/
def SignalView.reshape (v : SignalView) (shape : List Int) : Except Err SignalView :=
  if v.elemstrides = [1] then
    if npProd shape ≠ v.size then
      .error (.shapeMismatch shape v.shape)
    else
      .ok ⟨v.base, shape, reshapeElemstrides shape, v.offset⟩
  else
    .error (.todo "reshape of strided view")

/-- Embedding of `SignalView.transpose`: unconditionally raises
`TODO('transpose')`. -/
def SignalView.transpose (v : SignalView) (neworder : Option (List Nat)) :
    Except Err SignalView :=
  .error (.todo "transpose")

/-- Embedding of the `for ii, idx in enumerate(item)` loop of
`SignalView.__getitem__` on a tuple index.  State: current position `ii`, the
local copies `shape`/`es` of the view's shape and elemstrides, the running
`offset`, and the accumulated `dims_to_del`.  An integer index reads
`elemstrides[ii]` (Python `IndexError` when out of range) and records the
dimension for deletion; a slice index reads `shape[ii]`, normalizes via
`slice.indices` (Python `ValueError` on zero step or negative length), reads
`elemstrides[ii]`, raises `NotImplementedError` when the resolved stride is
not 1, and overwrites `shape[ii]` with `stop - start`. -/
def gvLoop : List Index → Nat → List Int → List Int → Int → List Nat →
    Except Err (List Int × List Int × Int × List Nat)
  | [], _, shape, es, offset, dims => .ok (shape, es, offset, dims)
  | .int i :: rest, ii, shape, es, offset, dims =>
    match es[ii]? with
    | none => .error .indexError
    | some e => gvLoop rest (ii + 1) shape es (offset + i * e) (dims ++ [ii])
  | .slice s :: rest, ii, shape, es, offset, dims =>
    match shape[ii]? with
    | none => .error .indexError
    | some len =>
      if s.step.getD 1 = 0 ∨ len < 0 then .error (.valueError none)
      else
        match es[ii]? with
        | none => .error .indexError
        | some e =>
          let r := sliceIndices s len
          if r.2.2 ≠ 1 then .error .notImplemented
          else gvLoop rest (ii + 1) (shape.set ii (r.2.1 - r.1)) es (offset + r.1 * e) dims

/-- Embedding of the deletion loop
`for dim in reversed(dims_to_del): shape.pop(dim); elemstrides.pop(dim)`;
the argument list is already reversed.  Python `list.pop(dim)` raises
`IndexError` when `dim` is out of range. -/
def popDims : List Nat → List Int → List Int → Except Err (List Int × List Int)
  | [], shape, es => .ok (shape, es)
  | d :: rest, shape, es =>
    if d < shape.length then
      if d < es.length then popDims rest (shape.eraseIdx d) (es.eraseIdx d)
      else .error .indexError
    else .error .indexError

/-- The tuple branch of `SignalView.__getitem__`: run the enumeration loop on
local copies of shape/elemstrides, delete the integer-indexed dimensions in
descending order, and build a fresh view over the same base. -/
def getitemTuple (v : SignalView) (item : List Index) : Except Err SignalView :=
  match gvLoop item 0 v.shape v.elemstrides v.offset [] with
  | .error e => .error e
  | .ok (shape, es, offset, dims) =>
    match popDims dims.reverse shape es with
    | .error e => .error e
    | .ok (shape2, es2) => .ok ⟨v.base, shape2, es2, offset⟩

/-- Embedding of `SignalView.__getitem__`: a tuple (or list) index runs the
enumeration loop; a bare integer raises `IndexError` on a 0-d view, raises
`NotImplementedError` unless `0 <= item < self.shape[0]`, and otherwise drops
the leading dimension (`shape[1:]`, `elemstrides[1:]`,
`offset + item * elemstrides[0]`); a bare slice delegates to the one-element
tuple `(item,)`. -/
def SignalView.getitem (v : SignalView) : Item → Except Err SignalView
  | .tuple idxs => getitemTuple v idxs
  | .slice s => getitemTuple v [.slice s]
  | .int i =>
    match v.shape with
    | [] => .error .indexError
    | s0 :: srest =>
      if 0 ≤ i ∧ i < s0 then
        match v.elemstrides with
        | [] => .error .indexError
        | e0 :: erest => .ok ⟨v.base, srest, erest, v.offset + i * e0⟩
      else .error .notImplemented

/-- Embedding of a `Signal(n)` as the view it presents: shape `(n,)`,
elemstrides `(1,)`, offset `0`, base itself (identified by `id`). -/
def signalView (id : Nat) (n : Int) : SignalView :=
  ⟨id, [n], [1], 0⟩

/-- Modelled from the spec: the population-kind registry
`nengo.nonlinear.registry` (module `nengo/nonlinear.py` is not among the
sources).  The spec describes it as "a set membership test plus a
constructor-call capability, supplied by the (out-of-scope) neuron/population
subsystem".  `lif` stands for a registered population kind and `unregistered`
for a kind absent from the registry. -/
inductive NlKind where
  | lif
  | unregistered
  deriving DecidableEq, Repr

/-- Modelled from the spec: the registry contents — a set of registered
population kinds, with `NlKind.lif` registered. -/
def nlreg : List NlKind := [NlKind.lif]

/-- Modelled from the spec: a constructed population object
(`rval = nlclass(*args, **kwargs)`); carries its kind, its constructor
argument, and the `n` attribute read by `Encoder`/`Decoder`. -/
structure Nonlin where
  kind : NlKind
  n : Int
  deriving DecidableEq, Repr

/-- Shape of a numpy weight matrix; the float64 entries are outside the
embedding. -/
structure Mat where
  rows : Int
  cols : Int
  deriving DecidableEq, Repr

/-- Embedding of `Encoder.__init__`: default weights are
`random_weight_rng.randn(pop.n, sig.size)` (shape `(pop.n, sig.size)`);
explicit weights must have exactly that shape, otherwise
`ValueError('weight shape', weights.shape)` is raised. -/
structure Encoder where
  sig : SignalView
  pop : Nonlin
  weights : Mat
  deriving DecidableEq, Repr

def Encoder.make (sig : SignalView) (pop : Nonlin) (weights : Option Mat) :
    Except Err Encoder :=
  match weights with
  | none => .ok ⟨sig, pop, ⟨pop.n, sig.size⟩⟩
  | some w =>
    if w.rows = pop.n ∧ w.cols = sig.size then .ok ⟨sig, pop, w⟩
    else .error (.valueError (some (w.rows, w.cols)))

/-- Embedding of `Decoder.__init__`: default weights are
`random_weight_rng.randn(sig.size, pop.n)` (shape `(sig.size, pop.n)`);
explicit weights must have exactly that shape. -/
structure Decoder where
  pop : Nonlin
  sig : SignalView
  weights : Mat
  deriving DecidableEq, Repr

def Decoder.make (pop : Nonlin) (sig : SignalView) (weights : Option Mat) :
    Except Err Decoder :=
  match weights with
  | none => .ok ⟨pop, sig, ⟨sig.size, pop.n⟩⟩
  | some w =>
    if w.rows = sig.size ∧ w.cols = pop.n then .ok ⟨pop, sig, w⟩
    else .error (.valueError (some (w.rows, w.cols)))

/-- Embedding of `Transform(alpha, insig, outsig)`: a pure data record. -/
structure Transform where
  alpha : Int
  insig : SignalView
  outsig : SignalView
  deriving DecidableEq, Repr

/-- Embedding of `Filter(alpha, oldsig, newsig)`: a pure data record. -/
structure Filter where
  alpha : Int
  oldsig : SignalView
  newsig : SignalView
  deriving DecidableEq, Repr

/-- Embedding of `SignalProbe(sig, dt)`. -/
structure SignalProbe where
  sig : SignalView
  dt : Rat
  deriving DecidableEq, Repr

/-- A `Signal` or `Constant` as stored in `SimModel.signals`: its view and,
for a `Constant`, its fixed value (abstracted to an `Int` token). -/
structure Sig where
  view : SignalView
  value : Option Int
  deriving DecidableEq, Repr

/-- Embedding of `SimModel.__init__`: the seven ordered collections plus
`dt`. -/
structure SimModel where
  dt : Rat
  signals : List Sig
  nonlinearities : List Nonlin
  encoders : List Encoder
  decoders : List Decoder
  transforms : List Transform
  filters : List Filter
  signal_probes : List SignalProbe
  deriving DecidableEq, Repr

def SimModel.empty (dt : Rat) : SimModel :=
  ⟨dt, [], [], [], [], [], [], []⟩

/-- Embedding of `SimModel.signal`: builds a `Signal(n)` (or `Constant(n,
value)`), appends it, returns it.  The fresh Python object identity is
modelled by the current length of the signal list. -/
def SimModel.signal (m : SimModel) (n : Int) (value : Option Int) : SimModel × Sig :=
  let rval : Sig := ⟨signalView m.signals.length n, value⟩
  ({ m with signals := m.signals ++ [rval] }, rval)

/-- Embedding of `SimModel.signal_probe`: appends and returns the probe. -/
def SimModel.signal_probe (m : SimModel) (sig : SignalView) (dt : Rat) :
    SimModel × SignalProbe :=
  let rval : SignalProbe := ⟨sig, dt⟩
  ({ m with signal_probes := m.signal_probes ++ [rval] }, rval)

/-- Embedding of `SimModel.nonlinearity`, faithful to the two defects in the
source: on an unregistered kind, formatting the `TypeError` message evaluates
the undefined identifier `nl`, so a `NameError` propagates with the model
unchanged; on a registered kind, the component is constructed and appended,
but `return rvla` then evaluates the undefined identifier `rvla`, so a
`NameError` propagates after the append. -/
def SimModel.nonlinearity (m : SimModel) (nlclass : NlKind) (arg : Int) :
    SimModel × Except Err Nonlin :=
  if nlclass ∈ nlreg then
    let rval : Nonlin := ⟨nlclass, arg⟩
    ({ m with nonlinearities := m.nonlinearities ++ [rval] }, .error (.nameError "rvla"))
  else
    (m, .error (.nameError "nl"))

/-- Embedding of `SimModel.encoder`: constructs the `Encoder` (which may raise)
and appends it on success. -/
def SimModel.encoder (m : SimModel) (sig : SignalView) (pop : Nonlin)
    (weights : Option Mat) : SimModel × Except Err Encoder :=
  match Encoder.make sig pop weights with
  | .error e => (m, .error e)
  | .ok rval => ({ m with encoders := m.encoders ++ [rval] }, .ok rval)

/-- Embedding of `SimModel.decoder`. -/
def SimModel.decoder (m : SimModel) (pop : Nonlin) (sig : SignalView)
    (weights : Option Mat) : SimModel × Except Err Decoder :=
  match Decoder.make pop sig weights with
  | .error e => (m, .error e)
  | .ok rval => ({ m with decoders := m.decoders ++ [rval] }, .ok rval)

/-- Embedding of `SimModel.transform`: appends and returns. -/
def SimModel.transform (m : SimModel) (alpha : Int) (insig outsig : SignalView) :
    SimModel × Transform :=
  let rval : Transform := ⟨alpha, insig, outsig⟩
  ({ m with transforms := m.transforms ++ [rval] }, rval)

/-- Embedding of `SimModel.filter`: appends and returns. -/
def SimModel.filter (m : SimModel) (alpha : Int) (oldsig newsig : SignalView) :
    SimModel × Filter :=
  let rval : Filter := ⟨alpha, oldsig, newsig⟩
  ({ m with filters := m.filters ++ [rval] }, rval)

end Nengo

namespace Nengo

theorem stridesLoop_append (l1 l2 acc : List Int) :
    stridesLoop (l1 ++ l2) acc = stridesLoop l2 (stridesLoop l1 acc) := by
  induction l1 generalizing acc with
  | nil => rfl
  | cons x xs ih => simp [stridesLoop, ih]

theorem stridesLoop_reverse_tails (t : List Int) :
    stridesLoop t.reverse [1] = t.tails.map npProd := by
  induction t with
  | nil => simp [stridesLoop, npProd]
  | cons x xs ih =>
    rw [List.reverse_cons, stridesLoop_append, ih]
    have hhead : (xs.tails.map npProd).headD 1 = npProd xs := by
      cases xs <;> simp [npProd]
    have hstep : stridesLoop [x] (xs.tails.map npProd)
        = x * (xs.tails.map npProd).headD 1 :: xs.tails.map npProd := rfl
    rw [hstep, hhead, List.tails_cons]
    simp [npProd]

theorem reshapeElemstrides_tails (shape : List Int) :
    reshapeElemstrides shape = (shape.drop 1).tails.map npProd := by
  rw [reshapeElemstrides, stridesLoop_reverse_tails]

end Nengo

namespace Nengo

/-- C3: for every view with elemstrides exactly `(1,)` (in particular every
`Signal` of size `N`) and every requested shape `S`, `reshape(S)` succeeds
exactly when `product(S) == N`, yielding a new view over the same base with
shape `S`, the same offset, and row-major elemstrides (each stride is the
product of the dimensions after it: `(S.drop 1).tails.map npProd`); when
`product(S) != N` it fails with the shape-mismatch condition
`ShapeMismatch(S, old_shape)`; and for every view whose elemstrides are not
`(1,)`, `reshape` fails with the unsupported-operation condition
`TODO('reshape of strided view')`. -/
theorem reshape_spec (v : SignalView) (S : List Int) :
    (v.elemstrides = [1] →
      (npProd S = npProd v.shape →
        v.reshape S = .ok ⟨v.base, S, (S.drop 1).tails.map npProd, v.offset⟩) ∧
      (npProd S ≠ npProd v.shape →
        v.reshape S = .error (.shapeMismatch S v.shape))) ∧
    (v.elemstrides ≠ [1] → v.reshape S = .error (.todo "reshape of strided view")) := by
  refine ⟨fun h1 => ⟨fun h2 => ?_, fun h2 => ?_⟩, fun h1 => ?_⟩
  · rw [← reshapeElemstrides_tails]
    simp [SignalView.reshape, h1, SignalView.size, h2]
  · simp [SignalView.reshape, h1, SignalView.size, h2]
  · simp [SignalView.reshape, h1]

/-- Witness for `reshape_spec`: concrete instances of all three branches on a
size-6 signal. -/
theorem reshape_spec_witness :
    (signalView 0 6).reshape [2, 3] = .ok ⟨0, [2, 3], [3, 1], 0⟩ ∧
    (signalView 0 6).reshape [2, 4] = .error (.shapeMismatch [2, 4] [6]) ∧
    SignalView.reshape ⟨0, [2, 3], [3, 1], 0⟩ [6] = .error (.todo "reshape of strided view") := by
  refine ⟨((reshape_spec (signalView 0 6) [2, 3]).1 rfl).1 (by decide),
    ((reshape_spec (signalView 0 6) [2, 4]).1 rfl).2 (by decide),
    (reshape_spec ⟨0, [2, 3], [3, 1], 0⟩ [6]).2 (by decide)⟩

end Nengo

namespace Nengo

/-- C1 (code bug): `SimModel.nonlinearity` called with a registered kind does
append exactly one newly constructed component to `nonlinearities`, but then
raises `NameError` (the source line `return rvla` misspells `rval`) instead of
returning the appended component, contradicting the claim that every factory
returns the newly appended component; the other factories (here: `signal`) do
append one component and return it. -/
theorem nonlinearity_registered_appends_then_raises :
    ((SimModel.empty (1/1000)).nonlinearity NlKind.lif 5).1.nonlinearities
      = [⟨NlKind.lif, 5⟩] ∧
    ((SimModel.empty (1/1000)).nonlinearity NlKind.lif 5).2
      = .error (.nameError "rvla") ∧
    ((SimModel.empty (1/1000)).signal 6 none).1.signals.length = 1 ∧
    ((SimModel.empty (1/1000)).signal 6 none).2 = ⟨signalView 0 6, none⟩ := by
  refine ⟨rfl, rfl, rfl, rfl⟩

/-- C4 (code bug): `SimModel.nonlinearity` called with an unregistered kind
raises `NameError` (the source formats its `TypeError` message from the
undefined identifier `nl`), not an unregistered-kind diagnostic identifying
the offending kind; the model is left unchanged. -/
theorem nonlinearity_unregistered_raises_nameerror :
    ((SimModel.empty (1/1000)).nonlinearity NlKind.unregistered 7).2
      = .error (.nameError "nl") ∧
    ((SimModel.empty (1/1000)).nonlinearity NlKind.unregistered 7).1
      = SimModel.empty (1/1000) := by
  refine ⟨rfl, rfl⟩

/-- C5 (counterexample): an out-of-range integer index inside a tuple is not
bounds-checked: on a view of shape `(2,)` the index `(5,)` succeeds silently,
yielding a view at offset 5 outside the dimension's bounds, instead of failing
with an out-of-range condition. -/
theorem tuple_int_index_not_bounds_checked :
    SignalView.getitem ⟨0, [2], [1], 0⟩ (.tuple [.int 5]) = .ok ⟨0, [], [], 5⟩ := rfl

/-- C8 (counterexample): a bare integer index is not equivalent to the
one-element tuple index when the integer is out of range: on a view of shape
`(4,)`, `v[9]` fails with `NotImplementedError` while `v[(9,)]` succeeds. -/
theorem bare_vs_tuple_int_index_differ :
    SignalView.getitem ⟨0, [4], [1], 0⟩ (.int 9) = .error .notImplemented ∧
    SignalView.getitem ⟨0, [4], [1], 0⟩ (.tuple [.int 9]) = .ok ⟨0, [], [], 9⟩ := by
  refine ⟨rfl, rfl⟩

end Nengo

namespace Nengo

/-- C6: for every `Encoder(sig, pop, weights)` and `Decoder(pop, sig,
weights)` construction, whether weights are supplied or defaulted, the stored
weights have shape exactly `(pop.n, sig.size)` for `Encoder` and `(sig.size,
pop.n)` for `Decoder`; explicit weights of any other shape make construction
fail with the dimension-mismatch condition `ValueError('weight shape', shape)`
reporting the offending shape. -/
theorem encoder_decoder_weight_shapes (sig : SignalView) (pop : Nonlin) (w : Option Mat) :
    (∀ e, Encoder.make sig pop w = .ok e →
      e.weights.rows = pop.n ∧ e.weights.cols = sig.size) ∧
    (∀ d, Decoder.make pop sig w = .ok d →
      d.weights.rows = sig.size ∧ d.weights.cols = pop.n) ∧
    (∀ m, w = some m → ¬(m.rows = pop.n ∧ m.cols = sig.size) →
      Encoder.make sig pop w = .error (.valueError (some (m.rows, m.cols)))) ∧
    (∀ m, w = some m → ¬(m.rows = sig.size ∧ m.cols = pop.n) →
      Decoder.make pop sig w = .error (.valueError (some (m.rows, m.cols)))) := by
  refine ⟨?_, ?_, ?_, ?_⟩
  · intro e he
    cases w with
    | none =>
      simp [Encoder.make] at he
      simp [← he]
    | some m =>
      by_cases hc : m.rows = pop.n ∧ m.cols = sig.size
      · simp [Encoder.make, hc] at he
        simp [← he, hc.1, hc.2]
      · simp [Encoder.make, hc] at he
  · intro d hd
    cases w with
    | none =>
      simp [Decoder.make] at hd
      simp [← hd]
    | some m =>
      by_cases hc : m.rows = sig.size ∧ m.cols = pop.n
      · simp [Decoder.make, hc] at hd
        simp [← hd, hc.1, hc.2]
      · simp [Decoder.make, hc] at hd
  · intro m hm hshape
    subst hm
    simp [Encoder.make, hshape]
  · intro m hm hshape
    subst hm
    simp [Decoder.make, hshape]

/-- Witness for `encoder_decoder_weight_shapes`: a defaulted encoder on a
size-3 signal and a 4-neuron population, and a rejected 2x2 explicit weight
matrix. -/
theorem encoder_decoder_weight_shapes_witness :
    ((⟨signalView 0 3, ⟨NlKind.lif, 4⟩, ⟨4, 3⟩⟩ : Encoder).weights.rows
        = (⟨NlKind.lif, 4⟩ : Nonlin).n ∧
      (⟨signalView 0 3, ⟨NlKind.lif, 4⟩, ⟨4, 3⟩⟩ : Encoder).weights.cols
        = (signalView 0 3).size) ∧
    Encoder.make (signalView 0 3) ⟨NlKind.lif, 4⟩ (some ⟨2, 2⟩)
      = .error (.valueError (some (2, 2))) :=
  ⟨(encoder_decoder_weight_shapes (signalView 0 3) ⟨NlKind.lif, 4⟩ none).1 _ rfl,
   (encoder_decoder_weight_shapes (signalView 0 3) ⟨NlKind.lif, 4⟩ (some ⟨2, 2⟩)).2.2.1
      ⟨2, 2⟩ rfl (by decide)⟩

end Nengo

namespace Nengo

/-- C5 (amended): a bare integer index is bounds-checked — on a 0-d view it
fails with `IndexError`, and outside `[0, shape[0])` it fails with the
out-of-range condition (raised as `NotImplementedError` in the source) — but
an integer index inside a tuple is not bounds-checked: it always adds
`index * elemstrides[0]` to the offset and removes the dimension, even when
the index is out of range, silently producing a view that may address
elements outside the dimension's bounds. -/
theorem bare_int_checked_tuple_int_unchecked (v : SignalView) (i : Int) :
    (v.shape = [] → v.getitem (.int i) = .error .indexError) ∧
    (∀ s0 srest, v.shape = s0 :: srest → ¬(0 ≤ i ∧ i < s0) →
      v.getitem (.int i) = .error .notImplemented) ∧
    (∀ s0 srest e0 erest, v.shape = s0 :: srest → v.elemstrides = e0 :: erest →
      v.getitem (.tuple [.int i]) = .ok ⟨v.base, srest, erest, v.offset + i * e0⟩) := by
  obtain ⟨b, sh, es, off⟩ := v
  refine ⟨?_, ?_, ?_⟩
  · intro h
    simp only at h
    subst h
    rfl
  · intro s0 srest hsh hrange
    simp only at hsh
    subst hsh
    simp [SignalView.getitem, hrange]
  · intro s0 srest e0 erest hsh hes
    simp only at hsh hes
    subst hsh
    subst hes
    simp [SignalView.getitem, getitemTuple, gvLoop, popDims]

/-- Witness for `bare_int_checked_tuple_int_unchecked`: index 7 on a view of
shape `(3,)`, bare (fails) and in a tuple (succeeds out of bounds). -/
theorem bare_int_checked_witness :
    SignalView.getitem ⟨0, [3], [1], 0⟩ (.int 7) = .error .notImplemented ∧
    SignalView.getitem ⟨0, [3], [1], 0⟩ (.tuple [.int 7]) = .ok ⟨0, [], [], 7⟩ :=
  ⟨(bare_int_checked_tuple_int_unchecked ⟨0, [3], [1], 0⟩ 7).2.1 3 [] rfl (by decide),
   (bare_int_checked_tuple_int_unchecked ⟨0, [3], [1], 0⟩ 7).2.2 3 [] 1 [] rfl rfl⟩

/-- C8 (amended): a bare slice index behaves exactly like the one-element
tuple index (the source delegates to `(item,)`), and a bare integer index
behaves exactly like the one-element tuple index whenever the integer is in
range (`0 ≤ i < shape[0]`); outside that range the bare form fails while the
tuple form is not bounds-checked. -/
theorem bare_index_equiv_tuple_in_range (v : SignalView) :
    (∀ s : SliceDesc, v.getitem (.slice s) = v.getitem (.tuple [.slice s])) ∧
    (∀ i s0 srest, v.shape = s0 :: srest → 0 ≤ i → i < s0 →
      v.getitem (.int i) = v.getitem (.tuple [.int i])) := by
  obtain ⟨b, sh, es, off⟩ := v
  refine ⟨fun s => rfl, ?_⟩
  intro i s0 srest hsh h0 h1
  simp only at hsh
  subst hsh
  cases es with
  | nil => simp [SignalView.getitem, getitemTuple, gvLoop, popDims, h0, h1]
  | cons e0 erest => simp [SignalView.getitem, getitemTuple, gvLoop, popDims, h0, h1]

/-- Witness for `bare_index_equiv_tuple_in_range`: the in-range index 1 on the
`(2,3)` view agrees between the bare and tuple forms. -/
theorem bare_index_equiv_tuple_in_range_witness :
    SignalView.getitem ⟨0, [2, 3], [3, 1], 0⟩ (.int 1)
      = SignalView.getitem ⟨0, [2, 3], [3, 1], 0⟩ (.tuple [.int 1]) :=
  (bare_index_equiv_tuple_in_range ⟨0, [2, 3], [3, 1], 0⟩).2 1 2 [3] rfl (by decide) (by decide)

end Nengo

namespace Nengo

theorem getitemTuple_base (v : SignalView) (item : List Index) (w : SignalView)
    (h : getitemTuple v item = .ok w) : w.base = v.base := by
  unfold getitemTuple at h
  rcases hg : gvLoop item 0 v.shape v.elemstrides v.offset [] with e | st
  · rw [hg] at h
    cases h
  · rw [hg] at h
    obtain ⟨shape, es, offset, dims⟩ := st
    rcases hp : popDims dims.reverse shape es with e | pr
    · simp [hp] at h
    · obtain ⟨shape2, es2⟩ := pr
      simp [hp] at h
      simp [← h]

/-- C10: `reshape` and indexing never mutate the receiving view — the source
operates on local copies only, which the pure embedding reflects — and every
successfully returned view is a fresh `SignalView` whose base is exactly the
receiver's base (for `reshape` also with the same offset). -/
theorem view_ops_fresh_same_base (v w : SignalView) :
    (∀ S, v.reshape S = .ok w → w.base = v.base ∧ w.offset = v.offset) ∧
    (∀ it, v.getitem it = .ok w → w.base = v.base) := by
  constructor
  · intro S h
    unfold SignalView.reshape at h
    split_ifs at h
    all_goals first
      | exact (Except.noConfusion h)
      | (simp at h; simp [← h])
  · intro it h
    cases it with
    | tuple idxs => exact getitemTuple_base v idxs w h
    | slice s => exact getitemTuple_base v [.slice s] w h
    | int i =>
      obtain ⟨b, sh, es, off⟩ := v
      cases sh with
      | nil => simp [SignalView.getitem] at h
      | cons s0 srest =>
        by_cases hr : 0 ≤ i ∧ i < s0
        · cases es with
          | nil => simp [SignalView.getitem, hr] at h
          | cons e0 erest =>
            simp [SignalView.getitem, hr] at h
            simp [← h]
        · simp [SignalView.getitem, hr] at h

/-- Witness for `view_ops_fresh_same_base`: base preservation for a concrete
indexing and a concrete reshape. -/
theorem view_ops_fresh_same_base_witness :
    ((⟨0, [3], [1], 3⟩ : SignalView).base = (⟨0, [2, 3], [3, 1], 0⟩ : SignalView).base) ∧
    ((⟨7, [6], [1], 0⟩ : SignalView).base = (signalView 7 6).base) :=
  ⟨(view_ops_fresh_same_base ⟨0, [2, 3], [3, 1], 0⟩ ⟨0, [3], [1], 3⟩).2 (.int 1) rfl,
   ((view_ops_fresh_same_base (signalView 7 6) ⟨7, [6], [1], 0⟩).1 [6] rfl).1⟩

end Nengo

namespace Nengo

/-- Helper: a contiguous segment of a list, read positionally, is the
enumeration-indexed map of `getD`. -/
theorem drop_take_eq_enumFrom_map (es : List Int) (item : List Index) :
    ∀ ii : Nat, ii + item.length ≤ es.length →
    (es.drop ii).take item.length
      = (item.enumFrom ii).map (fun p => es.getD p.1 0) := by
  induction item with
  | nil => intro ii h; simp
  | cons x rest ih =>
    intro ii h
    have hii : ii < es.length := by simp at h; omega
    rw [List.drop_eq_getElem_cons hii]
    rw [List.enumFrom_cons]
    simp only [List.length_cons, List.take_succ_cons, List.map_cons]
    rw [ih (ii + 1) (by simp at h ⊢; omega)]
    congr 1
    simp [List.getD_eq_getElem?_getD, List.getElem?_eq_getElem hii]

end Nengo

namespace Nengo

/-- Helper: closed form of the `__getitem__` enumeration loop when every slice
in the index has non-negative dimension length and resolved stride 1: the loop
succeeds, leaves `elemstrides` untouched, adds every index's contribution
(`index * elemstrides[d]` for integers, `start * elemstrides[d]` for slices)
to the offset, overwrites sliced dimensions with `stop - start`, and records
the integer-indexed dimensions, in increasing order, for deletion. -/
theorem gvLoop_characterization (item : List Index) :
    ∀ (ii : Nat) (shape es : List Int) (offset : Int) (dims : List Nat),
    shape.length = es.length →
    ii + item.length ≤ shape.length →
    (∀ p ∈ item.enumFrom ii, ∀ s, p.2 = Index.slice s →
      0 ≤ shape.getD p.1 0 ∧ s.step.getD 1 = 1) →
    gvLoop item ii shape es offset dims = .ok
      (shape.take ii
        ++ (item.enumFrom ii).map (fun p =>
            match p.2 with
            | .int _ => shape.getD p.1 0
            | .slice s => (sliceIndices s (shape.getD p.1 0)).2.1
                - (sliceIndices s (shape.getD p.1 0)).1)
        ++ shape.drop (ii + item.length),
      es,
      offset + ((item.enumFrom ii).map (fun p =>
            match p.2 with
            | .int i => i * es.getD p.1 0
            | .slice s => (sliceIndices s (shape.getD p.1 0)).1 * es.getD p.1 0)).sum,
      dims ++ (item.enumFrom ii).filterMap (fun p =>
            match p.2 with
            | .int _ => some p.1
            | .slice _ => none)) := by
  induction item with
  | nil =>
    intro ii shape es offset dims hlen hbound hok
    simp [gvLoop]
  | cons x rest ih =>
    intro ii shape es offset dims hlen hbound hok
    have hii_sh : ii < shape.length := by simp at hbound; omega
    have hii_es : ii < es.length := hlen ▸ hii_sh
    have hes : es[ii]? = some es[ii] := List.getElem?_eq_getElem hii_es
    have hgdes : es.getD ii 0 = es[ii] := by
      simp [List.getD_eq_getElem?_getD, hes]
    have hbound' : ii + 1 + rest.length ≤ shape.length := by
      simp at hbound; omega
    rw [List.enumFrom_cons]
    cases x with
    | int i =>
      simp only [gvLoop, hes]
      rw [ih (ii + 1) shape es (offset + i * es[ii]) (dims ++ [ii]) hlen hbound'
        (by
          intro p hp s hs
          exact hok p (by rw [List.enumFrom_cons]; exact List.mem_cons_of_mem _ hp) s hs)]
      have htake : shape.take (ii + 1) = shape.take ii ++ [shape[ii]] := by
        rw [List.take_succ, List.getElem?_eq_getElem hii_sh]
        rfl
      have hgdsh : shape.getD ii 0 = shape[ii] := by
        simp [List.getD_eq_getElem?_getD, List.getElem?_eq_getElem hii_sh]
      have harith : ii + 1 + rest.length = ii + (rest.length + 1) := by omega
      simp only [List.map_cons, List.filterMap_cons, List.sum_cons, List.length_cons]
      rw [htake, harith, hgdsh, hgdes]
      simp only [List.append_assoc, List.singleton_append, add_assoc]
    | slice s =>
      have hs_ok := hok (ii, Index.slice s)
        (by rw [List.enumFrom_cons]; exact List.mem_cons_self _ _) s rfl
      have hgdsh : shape.getD ii 0 = shape[ii] := by
        simp [List.getD_eq_getElem?_getD, List.getElem?_eq_getElem hii_sh]
      have hstep1 : s.step.getD 1 = 1 := hs_ok.2
      have hnonneg : (0 : Int) ≤ shape[ii] := hgdsh ▸ hs_ok.1
      have hsh : shape[ii]? = some shape[ii] := List.getElem?_eq_getElem hii_sh
      have hcond : ¬(s.step.getD 1 = 0 ∨ shape[ii] < 0) := by
        push_neg
        exact ⟨by rw [hstep1]; omega, by omega⟩
      have hstride : ¬((sliceIndices s shape[ii]).2.2 ≠ 1) := by
        simp [sliceIndices, hstep1]
      simp only [gvLoop, hsh, hes, if_neg hcond, if_neg hstride]
      have hset : shape.set ii ((sliceIndices s shape[ii]).2.1 - (sliceIndices s shape[ii]).1)
          = shape.take ii
            ++ ((sliceIndices s shape[ii]).2.1 - (sliceIndices s shape[ii]).1)
              :: shape.drop (ii + 1) :=
        List.set_eq_take_cons_drop _ hii_sh
      have hlen' : (shape.set ii ((sliceIndices s shape[ii]).2.1
          - (sliceIndices s shape[ii]).1)).length = es.length := by
        simp [hlen]
      have hgd_set : ∀ k : Nat, ii + 1 ≤ k →
          (shape.set ii ((sliceIndices s shape[ii]).2.1
            - (sliceIndices s shape[ii]).1)).getD k 0 = shape.getD k 0 := by
        intro k hk
        simp [List.getD_eq_getElem?_getD, List.getElem?_set_ne (by omega : ii ≠ k)]
      rw [ih (ii + 1) _ es (offset + (sliceIndices s shape[ii]).1 * es[ii]) dims
        (by simpa using hlen)
        (by simpa using hbound')
        (by
          intro p hp s' hs'
          have hk := List.le_fst_of_mem_enumFrom hp
          rw [hgd_set p.1 hk]
          exact hok p (by rw [List.enumFrom_cons]; exact List.mem_cons_of_mem _ hp) s' hs')]
      have hlentake : (shape.take ii).length = ii := by
        simp [Nat.min_eq_left (Nat.le_of_lt hii_sh)]
      have htake' : (shape.set ii ((sliceIndices s shape[ii]).2.1
          - (sliceIndices s shape[ii]).1)).take (ii + 1)
          = shape.take ii ++ [(sliceIndices s shape[ii]).2.1 - (sliceIndices s shape[ii]).1] := by
        rw [hset]
        rw [show ii + 1 = (shape.take ii).length + 1 by rw [hlentake]]
        rw [List.take_append]
        rfl
      have hdrop' : (shape.set ii ((sliceIndices s shape[ii]).2.1
          - (sliceIndices s shape[ii]).1)).drop (ii + 1 + rest.length)
          = shape.drop (ii + (rest.length + 1)) := by
        rw [hset]
        rw [show ii + 1 + rest.length = (shape.take ii).length + (1 + rest.length) by
          rw [hlentake]; omega]
        rw [List.drop_append]
        rw [show (1 : Nat) + rest.length = rest.length + 1 by omega]
        rw [List.drop_succ_cons]
        rw [List.drop_drop]
        rw [show ii + 1 + rest.length = ii + (rest.length + 1) by omega]
      have hmapsh : (rest.enumFrom (ii + 1)).map (fun p =>
            match p.2 with
            | Index.int _ => (shape.set ii ((sliceIndices s shape[ii]).2.1
                - (sliceIndices s shape[ii]).1)).getD p.1 0
            | Index.slice s' => (sliceIndices s' ((shape.set ii ((sliceIndices s shape[ii]).2.1
                - (sliceIndices s shape[ii]).1)).getD p.1 0)).2.1
                - (sliceIndices s' ((shape.set ii ((sliceIndices s shape[ii]).2.1
                - (sliceIndices s shape[ii]).1)).getD p.1 0)).1)
          = (rest.enumFrom (ii + 1)).map (fun p =>
            match p.2 with
            | Index.int _ => shape.getD p.1 0
            | Index.slice s' => (sliceIndices s' (shape.getD p.1 0)).2.1
                - (sliceIndices s' (shape.getD p.1 0)).1) := by
        refine List.map_congr_left ?_
        intro p hp
        have hk := List.le_fst_of_mem_enumFrom hp
        rw [hgd_set p.1 hk]
      have hmapoff : (rest.enumFrom (ii + 1)).map (fun p =>
            match p.2 with
            | Index.int i => i * es.getD p.1 0
            | Index.slice s' => (sliceIndices s' ((shape.set ii ((sliceIndices s shape[ii]).2.1
                - (sliceIndices s shape[ii]).1)).getD p.1 0)).1 * es.getD p.1 0)
          = (rest.enumFrom (ii + 1)).map (fun p =>
            match p.2 with
            | Index.int i => i * es.getD p.1 0
            | Index.slice s' => (sliceIndices s' (shape.getD p.1 0)).1 * es.getD p.1 0) := by
        refine List.map_congr_left ?_
        intro p hp
        have hk := List.le_fst_of_mem_enumFrom hp
        rw [hgd_set p.1 hk]
      rw [htake', hdrop', hmapsh, hmapoff]
      simp only [List.map_cons, List.filterMap_cons, List.sum_cons, List.length_cons]
      rw [hgdsh, hgdes]
      simp only [List.append_assoc, List.singleton_append, add_assoc]

end Nengo

namespace Nengo

theorem popDims_cons_eraseIdx (d : Nat) (rest : List Nat) (shape es : List Int)
    (h1 : d < shape.length) (h2 : d < es.length) :
    popDims (d :: rest) shape es = popDims rest (shape.eraseIdx d) (es.eraseIdx d) := by
  simp [popDims, h1, h2]

theorem eraseIdx_append_middle (A : List Int) (b : Int) (t : List Int) (k : Nat)
    (hk : k = A.length) : (A ++ b :: t).eraseIdx k = A ++ t := by
  subst hk
  rw [List.eraseIdx_append_of_length_le (Nat.le_refl _)]
  simp

/-- Helper: popping the integer-index positions in descending order from the
processed prefix (with an arbitrary tail appended) deletes exactly the
integer-indexed entries. -/
theorem popDims_deletes_int_positions (FS FE : Nat × Index → Int) (item : List Index) :
    ∀ (tailS tailE : List Int), tailS.length = tailE.length →
    popDims ((item.enum.filterMap (fun p =>
        match p.2 with | Index.int _ => some p.1 | Index.slice _ => none)).reverse)
      (item.enum.map FS ++ tailS) (item.enum.map FE ++ tailE)
    = .ok
      (item.enum.filterMap (fun p =>
          match p.2 with | Index.int _ => none | Index.slice _ => some (FS p)) ++ tailS,
       item.enum.filterMap (fun p =>
          match p.2 with | Index.int _ => none | Index.slice _ => some (FE p)) ++ tailE) := by
  induction item using List.reverseRecOn with
  | nil =>
    intro tailS tailE hlen
    simp [popDims]
  | append_singleton l x ihl =>
    intro tailS tailE hlen
    rw [List.enum_append]
    rw [show List.enumFrom l.length [x] = [(l.length, x)] from rfl]
    cases x with
    | int j =>
      simp only [List.filterMap_append, List.map_append, List.filterMap_cons,
        List.filterMap_nil, List.map_cons, List.map_nil, List.append_nil]
      simp only [List.append_assoc, List.singleton_append, List.reverse_append,
        List.reverse_cons, List.reverse_nil, List.nil_append]
      rw [popDims_cons_eraseIdx _ _ _ _ (by simp) (by simp)]
      rw [eraseIdx_append_middle _ _ _ _ (by simp), eraseIdx_append_middle _ _ _ _ (by simp)]
      exact ihl tailS tailE hlen
    | slice s =>
      simp only [List.filterMap_append, List.map_append, List.filterMap_cons,
        List.filterMap_nil, List.map_cons, List.map_nil, List.append_nil]
      simp only [List.append_assoc, List.singleton_append]
      exact ihl (FS (l.length, Index.slice s) :: tailS) (FE (l.length, Index.slice s) :: tailE)
        (by simp [hlen])

end Nengo

namespace Nengo

/-- C2: for every `SignalView` and tuple index of integers and unit-stride
slices addressing existing dimensions, an integer index on dimension `d` adds
`index * elemstrides[d]` to the offset and removes dimension `d` from the
resulting shape and elemstrides (the removals, performed in descending
dimension order by the source, amount to deleting exactly the
integer-indexed positions); a slice on dimension `d` is normalized against
`shape[d]` by `slice.indices`, adds `start * elemstrides[d]` to the offset,
and replaces `shape[d]` with `stop - start`.  In particular, on the `(2,3)`
view with strides `(3,1)` and offset 0, `[1]` yields shape `(3,)` and offset
3, and `[:, 1]` yields shape `(2,)`, strides `(3,)`, offset 1. -/
theorem getitem_tuple_characterization (v : SignalView) (item : List Index)
    (hwf : v.shape.length = v.elemstrides.length)
    (hlen : item.length ≤ v.shape.length)
    (hok : ∀ p ∈ item.enum, ∀ s, p.2 = Index.slice s →
      0 ≤ v.shape.getD p.1 0 ∧ s.step.getD 1 = 1) :
    v.getitem (.tuple item) = .ok
      ⟨v.base,
       item.enum.filterMap (fun p =>
           match p.2 with
           | Index.int _ => none
           | Index.slice s => some ((sliceIndices s (v.shape.getD p.1 0)).2.1
               - (sliceIndices s (v.shape.getD p.1 0)).1))
         ++ v.shape.drop item.length,
       item.enum.filterMap (fun p =>
           match p.2 with
           | Index.int _ => none
           | Index.slice _ => some (v.elemstrides.getD p.1 0))
         ++ v.elemstrides.drop item.length,
       v.offset + (item.enum.map (fun p =>
           match p.2 with
           | Index.int i => i * v.elemstrides.getD p.1 0
           | Index.slice s => (sliceIndices s (v.shape.getD p.1 0)).1
               * v.elemstrides.getD p.1 0)).sum⟩
    ∧ SignalView.getitem ⟨0, [2, 3], [3, 1], 0⟩ (.int 1) = .ok ⟨0, [3], [1], 3⟩
    ∧ SignalView.getitem ⟨0, [2, 3], [3, 1], 0⟩
        (.tuple [.slice ⟨none, none, none⟩, .int 1]) = .ok ⟨0, [2], [3], 1⟩ := by
  refine ⟨?_, rfl, rfl⟩
  have h0 : 0 + item.length ≤ v.shape.length := by omega
  have hlene : 0 + item.length ≤ v.elemstrides.length := by omega
  have hok0 : ∀ p ∈ item.enumFrom 0, ∀ s, p.2 = Index.slice s →
      0 ≤ v.shape.getD p.1 0 ∧ s.step.getD 1 = 1 := hok
  have hchar := gvLoop_characterization item 0 v.shape v.elemstrides v.offset [] hwf h0 hok0
  have hes_decomp : (item.enumFrom 0).map (fun p => v.elemstrides.getD p.1 0)
      ++ v.elemstrides.drop item.length = v.elemstrides := by
    have h := drop_take_eq_enumFrom_map v.elemstrides item 0 hlene
    simp only [List.drop_zero] at h
    rw [← h]
    exact List.take_append_drop _ _
  have hpop := popDims_deletes_int_positions
    (fun p => match p.2 with
      | Index.int _ => v.shape.getD p.1 0
      | Index.slice s => (sliceIndices s (v.shape.getD p.1 0)).2.1
          - (sliceIndices s (v.shape.getD p.1 0)).1)
    (fun p => v.elemstrides.getD p.1 0)
    item (v.shape.drop item.length) (v.elemstrides.drop item.length)
    (by simp [hwf])
  simp only [List.enum] at hpop
  rw [hes_decomp] at hpop
  have hfix1 : (item.enumFrom 0).filterMap (fun p =>
        match p.2 with
        | Index.int _ => none
        | Index.slice _ => some (match p.2 with
            | Index.int _ => v.shape.getD p.1 0
            | Index.slice s => (sliceIndices s (v.shape.getD p.1 0)).2.1
                - (sliceIndices s (v.shape.getD p.1 0)).1))
      = (item.enumFrom 0).filterMap (fun p =>
        match p.2 with
        | Index.int _ => none
        | Index.slice s => some ((sliceIndices s (v.shape.getD p.1 0)).2.1
            - (sliceIndices s (v.shape.getD p.1 0)).1)) := by
    apply List.filterMap_congr
    intro p hp
    rcases p with ⟨k, idx⟩
    cases idx <;> rfl
  show getitemTuple v item = _
  simp only [List.enum]
  simp only [getitemTuple, hchar, List.take_zero, List.nil_append, Nat.zero_add]
  simp only [hpop, hfix1]

end Nengo

namespace Nengo

/-- Witness for `getitem_tuple_characterization`: the `[:, 1]` example with
all hypotheses discharged concretely. -/
theorem getitem_tuple_characterization_witness :
    SignalView.getitem ⟨0, [2, 3], [3, 1], 0⟩
        (.tuple [.slice ⟨none, none, none⟩, .int 1]) = .ok ⟨0, [2], [3], 1⟩ :=
  (getitem_tuple_characterization ⟨0, [2, 3], [3, 1], 0⟩
    [.slice ⟨none, none, none⟩, .int 1] rfl (by decide)
    (by
      intro p hp s hs
      have hp' : p = (0, Index.slice ⟨none, none, none⟩) ∨ p = (1, Index.int 1) := by
        simpa [List.enum, List.enumFrom] using hp
      rcases hp' with h | h <;> subst h
      · simp only at hs
        injection hs with h2
        subst h2
        exact ⟨by decide, by decide⟩
      · simp at hs)).2.2

/-- Helper: the enumeration loop fails with `NotImplementedError` as soon as
some slice in the index resolves to a stride other than 1 (given that every
slice sees a non-negative dimension length and a non-zero step). -/
theorem gvLoop_bad_slice (item : List Index) :
    ∀ (ii : Nat) (shape es : List Int) (offset : Int) (dims : List Nat),
    shape.length = es.length →
    ii + item.length ≤ shape.length →
    (∀ p ∈ item.enumFrom ii, ∀ s, p.2 = Index.slice s →
      0 ≤ shape.getD p.1 0 ∧ s.step.getD 1 ≠ 0) →
    (∃ p ∈ item.enumFrom ii, ∃ s, p.2 = Index.slice s ∧ s.step.getD 1 ≠ 1) →
    gvLoop item ii shape es offset dims = .error .notImplemented := by
  induction item with
  | nil =>
    intro ii shape es offset dims _ _ _ hex
    simp at hex
  | cons x rest ih =>
    intro ii shape es offset dims hlen hbound hok hex
    have hii_sh : ii < shape.length := by simp at hbound; omega
    have hii_es : ii < es.length := hlen ▸ hii_sh
    have hes : es[ii]? = some es[ii] := List.getElem?_eq_getElem hii_es
    have hsh : shape[ii]? = some shape[ii] := List.getElem?_eq_getElem hii_sh
    have hbound' : ii + 1 + rest.length ≤ shape.length := by simp at hbound; omega
    cases x with
    | int i =>
      simp only [gvLoop, hes]
      apply ih (ii + 1) shape es _ _ hlen hbound'
      · intro p hp s hs
        exact hok p (by rw [List.enumFrom_cons]; exact List.mem_cons_of_mem _ hp) s hs
      · rcases hex with ⟨p, hp, s, hs, hstep⟩
        rw [List.enumFrom_cons] at hp
        rcases List.mem_cons.mp hp with h | h
        · subst h
          simp at hs
        · exact ⟨p, h, s, hs, hstep⟩
    | slice s0 =>
      have hok_head := hok (ii, Index.slice s0)
        (by rw [List.enumFrom_cons]; exact List.mem_cons_self _ _) s0 rfl
      have hgdsh : shape.getD ii 0 = shape[ii] := by
        simp [List.getD_eq_getElem?_getD, hsh]
      have hcond : ¬(s0.step.getD 1 = 0 ∨ shape[ii] < 0) := by
        push_neg
        refine ⟨hok_head.2, ?_⟩
        have := hok_head.1
        rw [hgdsh] at this
        omega
      by_cases hstep1 : s0.step.getD 1 = 1
      · have hstride : ¬((sliceIndices s0 shape[ii]).2.2 ≠ 1) := by
          simp [sliceIndices, hstep1]
        simp only [gvLoop, hsh, hes, if_neg hcond, if_neg hstride]
        have hset : ∀ k : Nat, ii + 1 ≤ k →
            (shape.set ii ((sliceIndices s0 shape[ii]).2.1
              - (sliceIndices s0 shape[ii]).1)).getD k 0 = shape.getD k 0 := by
          intro k hk
          simp [List.getD_eq_getElem?_getD, List.getElem?_set_ne (by omega : ii ≠ k)]
        apply ih (ii + 1) _ es _ _ (by simpa using hlen) (by simpa using hbound')
        · intro p hp s hs
          have hk := List.le_fst_of_mem_enumFrom hp
          rw [hset p.1 hk]
          exact hok p (by rw [List.enumFrom_cons]; exact List.mem_cons_of_mem _ hp) s hs
        · rcases hex with ⟨p, hp, s, hs, hstep⟩
          rw [List.enumFrom_cons] at hp
          rcases List.mem_cons.mp hp with h | h
          · subst h
            simp only at hs
            injection hs with h2
            subst h2
            exact absurd hstep1 hstep
          · exact ⟨p, h, s, hs, hstep⟩
      · have hstride : (sliceIndices s0 shape[ii]).2.2 ≠ 1 := by
          simp [sliceIndices, hstep1]
        simp only [gvLoop, hsh, hes, if_neg hcond, if_pos hstride]

/-- C9: every call to `transpose()` fails with the unsupported-operation
condition `TODO('transpose')` (never a silent no-op), and every indexing call
(tuple or bare slice) containing a slice whose resolved stride is not 1 fails
with the unsupported-operation condition (`NotImplementedError`). -/
theorem transpose_and_nonunit_stride_unsupported (v : SignalView) (item : List Index) :
    (∀ o, v.transpose o = .error (.todo "transpose")) ∧
    (v.shape.length = v.elemstrides.length → item.length ≤ v.shape.length →
      (∀ p ∈ item.enum, ∀ s, p.2 = Index.slice s →
        0 ≤ v.shape.getD p.1 0 ∧ s.step.getD 1 ≠ 0) →
      (∃ p ∈ item.enum, ∃ s, p.2 = Index.slice s ∧ s.step.getD 1 ≠ 1) →
      v.getitem (.tuple item) = .error .notImplemented) ∧
    (∀ s : SliceDesc, 1 ≤ v.shape.length → v.shape.length = v.elemstrides.length →
      0 ≤ v.shape.getD 0 0 → s.step.getD 1 ≠ 0 → s.step.getD 1 ≠ 1 →
      v.getitem (.slice s) = .error .notImplemented) := by
  refine ⟨fun o => rfl, ?_, ?_⟩
  · intro hwf hlen hok hex
    have hbad := gvLoop_bad_slice item 0 v.shape v.elemstrides v.offset [] hwf
      (by omega) hok hex
    show getitemTuple v item = _
    simp only [getitemTuple, hbad]
  · intro s h1 hwf hnn h0 hne
    have hbad := gvLoop_bad_slice [Index.slice s] 0 v.shape v.elemstrides v.offset [] hwf
      (by simpa using h1)
      (by
        intro p hp s' hs'
        have hp' : p = (0, Index.slice s) := by
          simpa [List.enumFrom] using hp
        subst hp'
        simp only at hs'
        injection hs' with h2
        subst h2
        exact ⟨hnn, h0⟩)
      ⟨(0, Index.slice s), List.mem_cons_self _ _, s, rfl, hne⟩
    show getitemTuple v [Index.slice s] = _
    simp only [getitemTuple, hbad]

/-- Witness for `transpose_and_nonunit_stride_unsupported`: `transpose` on a
concrete view, and a step-2 slice on a size-6 signal view. -/
theorem transpose_and_nonunit_stride_unsupported_witness :
    SignalView.transpose ⟨0, [6], [1], 0⟩ none = .error (.todo "transpose") ∧
    SignalView.getitem ⟨0, [6], [1], 0⟩ (.tuple [.slice ⟨none, none, some 2⟩])
      = .error .notImplemented :=
  ⟨(transpose_and_nonunit_stride_unsupported ⟨0, [6], [1], 0⟩
      [.slice ⟨none, none, some 2⟩]).1 none,
   (transpose_and_nonunit_stride_unsupported ⟨0, [6], [1], 0⟩
      [.slice ⟨none, none, some 2⟩]).2.1 rfl (by decide)
      (by
        intro p hp s hs
        have hp' : p = (0, Index.slice ⟨none, none, some 2⟩) := by
          simpa [List.enum, List.enumFrom] using hp
        subst hp'
        simp only at hs
        injection hs with h2
        subst h2
        exact ⟨by decide, by decide⟩)
      ⟨(0, .slice ⟨none, none, some 2⟩), by decide, ⟨none, none, some 2⟩, rfl, by decide⟩⟩

end Nengo
